import Mathlib

/-!
Interval timer (`os5000/src/timing_SR.cpp`)

A shallow embedding of the `Timing` class: a wall-clock reference point
(`s` seconds, `us` microseconds), a period in seconds and a cached `expired`
flag.  Every operation of the class reads the system clock once through
`gettimeofday`; here that reading is an explicit argument of type `timeval`,
and the mutation of `this` is explicit state passing.

Conventions of the embedding

* `int` is 32 bits wide.  A value stored into an `int` variable, or computed by
  `int` arithmetic, is reduced by `wrap32` (two's complement, overflow as the
  value modulo `2^32`).  Arithmetic that C++ carries out in a wider type
  (`time_t`, `suseconds_t`) before the store into an `int` is exact up to that
  store, which is the same residue modulo `2^32`.
* `float` is IEEE-754 binary32 and `double` is binary64, every conversion and
  operation rounding to nearest, ties to even (`fl32`, `fl64`), evaluated in
  the declared type.  A finite floating-point value is the rational number it
  denotes; `period` holds such a value.  Infinities and NaN are not
  represented: the only operation that can leave the finite range is the
  product `period * 1000000` of `CheckExpired`, discussed there.
* The class declaration (`timing_SR.h`) is not among the sources.  The fields
  `s` and `us` hold the clock reading they are assigned, and the constant
  `TIMING_ERROR` is a parameter of `GetDt`.
-/

/-- The clock reading filled in by `gettimeofday`: seconds and microseconds. -/
structure timeval where
  tv_sec : Int
  tv_usec : Int
  deriving DecidableEq, Repr

/-- Value of a 32-bit two's complement `int` holding the integer `x`. -/
def wrap32 (x : Int) : Int :=
  (x + 2147483648) % 4294967296 - 2147483648

/-- Nearest integer to `q`, a tie going to the even neighbour. -/
def roundNE (q : ℚ) : Int :=
  if q - ⌊q⌋ < 1 / 2 then ⌊q⌋
  else if q - ⌊q⌋ > 1 / 2 then ⌊q⌋ + 1
  else if ⌊q⌋ % 2 = 0 then ⌊q⌋ else ⌊q⌋ + 1

/-- Spacing of the binary floating-point values at the magnitude `a`, for a
format with `m` stored significand bits and least normal exponent `emin`:
`2^(e - m)` with `e` the exponent of `a` (the greatest `e` with `2^e <= a`),
and the spacing of the least normal binade below it (subnormal values). -/
def ulpOf (m : Nat) (emin : Int) (a : ℚ) : ℚ :=
  2 ^ (max (Int.log 2 a) emin - (m : Int))

/-- The magnitude `a` rounded to the nearest floating-point magnitude, a tie
going to the even significand. -/
def roundMag (m : Nat) (emin : Int) (a : ℚ) : ℚ :=
  (roundNE (a / ulpOf m emin a) : ℚ) * ulpOf m emin a

/-- IEEE-754 round to nearest, ties to even, in sign and magnitude.  There is
no upper bound on the exponent: a result beyond the largest finite value of the
format stands for the infinity of its sign. -/
def roundBinary (m : Nat) (emin : Int) (q : ℚ) : ℚ :=
  if q < 0 then -roundMag m emin |q| else roundMag m emin |q|

/-- Rounding to `float` (binary32: 23 stored significand bits, least normal
exponent `-126`). -/
def fl32 (q : ℚ) : ℚ := roundBinary 23 (-126) q

/-- Rounding to `double` (binary64: 52 stored significand bits, least normal
exponent `-1022`). -/
def fl64 (q : ℚ) : ℚ := roundBinary 52 (-1022) q

/-- The fields of `class Timing`. -/
structure Timing where
  s : Int
  us : Int
  period : ℚ
  expired : Bool
  deriving DecidableEq, Repr

/-- `void Timing::Set()`: `s = t.tv_sec; us = t.tv_usec;` with `t` the clock
reading. -/
def Timing.Set (self : Timing) (t : timeval) : Timing :=
  { self with s := t.tv_sec, us := t.tv_usec }

/-- `void Timing::Setup()`: `Set(); expired = false;`. -/
def Timing.Setup (self : Timing) (t : timeval) : Timing :=
  { self.Set t with expired := false }

/-- `bool Timing::CheckExpired()`: the returned flag and the state after the
call.
`t1 = (s * 1000000) + us; t2 = (t.tv_sec * 1000000) + t.tv_usec;`
`if (t2 - t1 > (period * 1000000)) expired = true; else expired = false;`
`return expired;`
The comparison is one of `float`s: the `int` difference `t2 - t1` is converted
to `float`, and `period * 1000000` is a `float` product (the constant converts
exactly).  A product beyond the largest finite `float` is an infinity in the
source; the left operand is at most `2^31` in magnitude, so the comparison has
the same outcome with the unbounded rounding used here. -/
def Timing.CheckExpired (self : Timing) (t : timeval) : Bool × Timing :=
  let t1 : Int := wrap32 ((self.s * 1000000) + self.us)
  let t2 : Int := wrap32 ((t.tv_sec * 1000000) + t.tv_usec)
  let self1 : Timing :=
    if fl32 ((wrap32 (t2 - t1) : Int) : ℚ) > fl32 (self.period * 1000000) then
      { self with expired := true }
    else
      { self with expired := false }
  (self1.expired, self1)

/-- The outcome of `int Timing::GetDt()` by the `return` statement reached:
`none` for `return TIMING_ERROR;`, `some v` for
`return elapsedSec * 1000000 + elapsedUsec;` with value `v`. -/
def Timing.GetDtOutcome (self : Timing) (t : timeval) : Option Int :=
  if t.tv_usec > self.us then
    let elapsedSec : Int := wrap32 (self.s - t.tv_sec)
    let elapsedUsec : Int := wrap32 (1000000 + self.us - t.tv_usec)
    if elapsedSec < 0 then
      none
    else
      some (wrap32 (elapsedSec * 1000000 + elapsedUsec))
  else
    let elapsedSec : Int := wrap32 (self.s - t.tv_sec)
    let elapsedUsec : Int := wrap32 (self.us - t.tv_usec)
    some (wrap32 (elapsedSec * 1000000 + elapsedUsec))

/-- `int Timing::GetDt()`: the `int` handed to the caller, `TIMING_ERROR` being
the value of the constant of that name. -/
def Timing.GetDt (TIMING_ERROR : Int) (self : Timing) (t : timeval) : Int :=
  match self.GetDtOutcome t with
  | none => TIMING_ERROR
  | some v => v

/-- `float Timing::GetDtS()`:
`t1 = s * 1000000 + us; t2 = t.tv_sec * 1000000 + t.tv_usec;`
`return (float)(t2 - t1) / 1000000.;`
The cast rounds the `int` difference to `float`; `1000000.` is a `double`, so
the quotient is a `double` division; the `return` converts it to `float`. -/
def Timing.GetDtS (self : Timing) (t : timeval) : ℚ :=
  let t1 : Int := wrap32 (self.s * 1000000 + self.us)
  let t2 : Int := wrap32 (t.tv_sec * 1000000 + t.tv_usec)
  fl32 (fl64 (fl32 ((wrap32 (t2 - t1) : Int) : ℚ) / 1000000))

/-- The constructor `Timing::Timing(float _period)`: `period = _period; Setup();`.
The fields are uninitialised before the two statements; `Setup` assigns each of
the other three.  (Named `ctor` because `Timing.Timing` would shadow the type
inside its own namespace.) -/
def Timing.ctor (_period : ℚ) (t : timeval) : Timing :=
  Timing.Setup { s := 0, us := 0, period := _period, expired := false } t

/-- Microseconds since the clock's origin of a reading, as an exact integer. -/
def micros (t : timeval) : Int :=
  t.tv_sec * 1000000 + t.tv_usec

/-- The epoch of a timer as a clock reading. -/
def Timing.epoch (self : Timing) : timeval :=
  { tv_sec := self.s, tv_usec := self.us }

/-- The four member functions a client calls on a constructed timer. -/
inductive Call where
  | CheckExpired
  | Set
  | GetDt
  | GetDtS
  deriving DecidableEq, Repr

/-- The state of the timer after one call made at the clock reading `t`.
`CheckExpired` and `Set` assign fields as embedded above; the bodies of `GetDt`
and `GetDtS` assign only to their locals (`t`, `elapsedSec`, `elapsedUsec`,
`t1`, `t2`), so the object is as before. -/
def Timing.step (self : Timing) (c : Call) (t : timeval) : Timing :=
  match c with
  | Call.CheckExpired => (self.CheckExpired t).2
  | Call.Set => self.Set t
  | Call.GetDt => self
  | Call.GetDtS => self

theorem wrap32_of_range (x : Int) (h1 : -2147483648 ≤ x) (h2 : x < 2147483648) :
    wrap32 x = x := by
  unfold wrap32; omega

theorem wrap32_range (x : Int) : -2147483648 ≤ wrap32 x ∧ wrap32 x < 2147483648 := by
  unfold wrap32; omega

theorem wrap32_sub_wrap32 (a b : Int) : wrap32 (wrap32 a - wrap32 b) = wrap32 (a - b) := by
  unfold wrap32; omega

theorem wrap32_mul_add (a b : Int) :
    wrap32 (wrap32 a * 1000000 + wrap32 b) = wrap32 (a * 1000000 + b) := by
  unfold wrap32; omega

/-- The `int` difference `t2 - t1` of `CheckExpired` and `GetDtS` is the
wrapped distance between the two readings. -/
theorem int_diff_eq (self : Timing) (t : timeval) :
    wrap32 (wrap32 (t.tv_sec * 1000000 + t.tv_usec) - wrap32 (self.s * 1000000 + self.us))
      = wrap32 (micros t - micros self.epoch) := by
  rw [wrap32_sub_wrap32]; rfl

/-! Rounding to floating point -/

theorem roundNE_floor_le (q : ℚ) : ⌊q⌋ ≤ roundNE q ∧ roundNE q ≤ ⌊q⌋ + 1 := by
  unfold roundNE
  split_ifs <;> omega

theorem roundNE_near (q : ℚ) : (roundNE q : ℚ) - q ≤ 1 / 2 ∧ q - roundNE q ≤ 1 / 2 := by
  have hf := Int.floor_le q
  have hl := Int.lt_floor_add_one q
  unfold roundNE
  split_ifs <;> push_cast <;> constructor <;> linarith

theorem roundNE_intCast (n : Int) : roundNE (n : ℚ) = n := by
  unfold roundNE
  simp

theorem roundNE_mono {a b : ℚ} (h : a ≤ b) : roundNE a ≤ roundNE b := by
  have hfl : ⌊a⌋ ≤ ⌊b⌋ := Int.floor_mono h
  rcases eq_or_lt_of_le hfl with he | hlt
  · unfold roundNE
    rw [he]
    split_ifs <;> first | omega | (exfalso; linarith)
  · have h1 := (roundNE_floor_le a).2
    have h2 := (roundNE_floor_le b).1
    omega

theorem roundNE_eq_of_lt {q : ℚ} (n : Int) (h1 : (n : ℚ) - 1 / 2 < q) (h2 : q < n + 1 / 2) :
    roundNE q = n := by
  have h := roundNE_near q
  have a1 : (roundNE q : ℚ) < n + 1 := by linarith [h.1]
  have a2 : (n : ℚ) - 1 < roundNE q := by linarith [h.2]
  have b1 : roundNE q < n + 1 := by exact_mod_cast a1
  have b2 : n - 1 < roundNE q := by exact_mod_cast a2
  omega

theorem roundNE_tie {q : ℚ} (n : Int) (h : q = n + 1 / 2) :
    roundNE q = if n % 2 = 0 then n else n + 1 := by
  have hf : ⌊q⌋ = n := by
    rw [Int.floor_eq_iff]
    constructor <;> linarith
  unfold roundNE
  rw [hf]
  have h1 : ¬ (q - n < 1 / 2) := by linarith
  have h2 : ¬ (q - n > 1 / 2) := by linarith
  simp only [h1, h2, if_false]

theorem ulpOf_pos (m : Nat) (emin : Int) (a : ℚ) : 0 < ulpOf m emin a := by
  unfold ulpOf
  positivity

theorem roundMag_zero (m : Nat) (emin : Int) : roundMag m emin 0 = 0 := by
  unfold roundMag
  simp [roundNE_intCast, show roundNE (0 : ℚ) = 0 from by simpa using roundNE_intCast 0]

theorem roundMag_nonneg (m : Nat) (emin : Int) {a : ℚ} (ha : 0 ≤ a) :
    0 ≤ roundMag m emin a := by
  unfold roundMag
  have hu := ulpOf_pos m emin a
  have h0 : (0 : ℚ) ≤ a / ulpOf m emin a := div_nonneg ha (le_of_lt hu)
  have h1 : roundNE ((0 : Int) : ℚ) ≤ roundNE (a / ulpOf m emin a) :=
    roundNE_mono (by simpa using h0)
  rw [roundNE_intCast] at h1
  have h2 : (0 : ℚ) ≤ (roundNE (a / ulpOf m emin a) : ℚ) := by exact_mod_cast h1
  positivity

/-- The scaled magnitude stays below `2^(m+1)`. -/
theorem scaled_lt (m : Nat) (emin : Int) (a : ℚ) :
    a / ulpOf m emin a < 2 ^ (m + 1) := by
  have hu := ulpOf_pos m emin a
  rw [div_lt_iff₀ hu]
  have h1 : a < (2 : ℚ) ^ (Int.log 2 a + 1) := by
    have := Int.lt_zpow_succ_log_self (R := ℚ) (b := 2) (by norm_num) a
    simpa using this
  have h2 : (2 : ℚ) ^ (Int.log 2 a + 1) ≤ 2 ^ (max (Int.log 2 a) emin + 1) :=
    zpow_le_zpow_right₀ (by norm_num) (by omega)
  have h3 : (2 : ℚ) ^ (m + 1) * ulpOf m emin a = 2 ^ (max (Int.log 2 a) emin + 1) := by
    unfold ulpOf
    rw [← zpow_natCast, ← zpow_add₀ (by norm_num : (2 : ℚ) ≠ 0)]
    congr 1
    push_cast
    ring
  rw [h3]
  exact lt_of_lt_of_le h1 h2

theorem roundMag_le_pow (m : Nat) (emin : Int) (a : ℚ) :
    roundMag m emin a ≤ 2 ^ (max (Int.log 2 a) emin + 1) := by
  have hu := ulpOf_pos m emin a
  have h := le_of_lt (scaled_lt m emin a)
  have hc : ((2 : ℚ) ^ (m + 1)) = (((2 : Int) ^ (m + 1) : Int) : ℚ) := by push_cast; rfl
  rw [hc] at h
  have h1 := roundNE_mono h
  rw [roundNE_intCast] at h1
  have h2 : (roundNE (a / ulpOf m emin a) : ℚ) ≤ (((2 : Int) ^ (m + 1) : Int) : ℚ) := by
    exact_mod_cast h1
  have h3 : (((2 : Int) ^ (m + 1) : Int) : ℚ) * ulpOf m emin a
      = 2 ^ (max (Int.log 2 a) emin + 1) := by
    unfold ulpOf
    push_cast
    rw [← zpow_natCast, ← zpow_add₀ (by norm_num : (2 : ℚ) ≠ 0)]
    congr 1
    push_cast
    ring
  unfold roundMag
  calc (roundNE (a / ulpOf m emin a) : ℚ) * ulpOf m emin a
      ≤ (((2 : Int) ^ (m + 1) : Int) : ℚ) * ulpOf m emin a :=
        mul_le_mul_of_nonneg_right h2 (le_of_lt hu)
    _ = _ := h3

theorem pow_le_roundMag (m : Nat) (emin : Int) {a : ℚ} (ha : 0 < a)
    (hn : emin ≤ Int.log 2 a) :
    2 ^ (Int.log 2 a) ≤ roundMag m emin a := by
  have hu := ulpOf_pos m emin a
  have hmax : max (Int.log 2 a) emin = Int.log 2 a := max_eq_left hn
  have hlow : (2 : ℚ) ^ (Int.log 2 a) ≤ a := by
    have := Int.zpow_log_le_self (R := ℚ) (b := 2) (by norm_num) ha
    simpa using this
  have h3 : (((2 : Int) ^ m : Int) : ℚ) * ulpOf m emin a = 2 ^ (Int.log 2 a) := by
    unfold ulpOf
    rw [hmax]
    push_cast
    rw [← zpow_natCast, ← zpow_add₀ (by norm_num : (2 : ℚ) ≠ 0)]
    congr 1
    ring
  have h : (((2 : Int) ^ m : Int) : ℚ) ≤ a / ulpOf m emin a := by
    rw [le_div_iff₀ hu, h3]
    exact hlow
  have h1 := roundNE_mono h
  rw [roundNE_intCast] at h1
  have h2 : (((2 : Int) ^ m : Int) : ℚ) ≤ (roundNE (a / ulpOf m emin a) : ℚ) := by
    exact_mod_cast h1
  unfold roundMag
  calc (2 : ℚ) ^ (Int.log 2 a) = (((2 : Int) ^ m : Int) : ℚ) * ulpOf m emin a := h3.symm
    _ ≤ (roundNE (a / ulpOf m emin a) : ℚ) * ulpOf m emin a :=
        mul_le_mul_of_nonneg_right h2 (le_of_lt hu)

theorem roundMag_mono (m : Nat) (emin : Int) {a b : ℚ} (ha : 0 ≤ a) (hab : a ≤ b) :
    roundMag m emin a ≤ roundMag m emin b := by
  rcases eq_or_lt_of_le ha with h0 | hpos
  · rw [← h0, roundMag_zero]
    exact roundMag_nonneg m emin (le_trans ha hab)
  · have hb : 0 < b := lt_of_lt_of_le hpos hab
    have hlog : Int.log 2 a ≤ Int.log 2 b := Int.log_mono_right hpos hab
    have hE : max (Int.log 2 a) emin ≤ max (Int.log 2 b) emin := max_le_max hlog le_rfl
    rcases eq_or_lt_of_le hE with he | hlt
    · have hu : ulpOf m emin a = ulpOf m emin b := by
        unfold ulpOf; rw [he]
      have hup := ulpOf_pos m emin b
      unfold roundMag
      rw [hu]
      have h1 : a / ulpOf m emin b ≤ b / ulpOf m emin b :=
        div_le_div_of_nonneg_right hab (le_of_lt hup)
      have h2 := roundNE_mono h1
      have h3 : (roundNE (a / ulpOf m emin b) : ℚ) ≤ (roundNE (b / ulpOf m emin b) : ℚ) := by
        exact_mod_cast h2
      exact mul_le_mul_of_nonneg_right h3 (le_of_lt hup)
    · have hbn : emin ≤ Int.log 2 b := by
        by_contra hc
        have : max (Int.log 2 b) emin = emin := max_eq_right (by omega)
        have h2 : emin ≤ max (Int.log 2 a) emin := le_max_right _ _
        omega
      have hmaxb : max (Int.log 2 b) emin = Int.log 2 b := max_eq_left hbn
      have h1 := roundMag_le_pow m emin a
      have h2 := pow_le_roundMag m emin hb hbn
      have h3 : (2 : ℚ) ^ (max (Int.log 2 a) emin + 1) ≤ 2 ^ (Int.log 2 b) :=
        zpow_le_zpow_right₀ (by norm_num) (by omega)
      linarith

theorem roundBinary_mono (m : Nat) (emin : Int) {x y : ℚ} (h : x ≤ y) :
    roundBinary m emin x ≤ roundBinary m emin y := by
  unfold roundBinary
  by_cases hx : x < 0
  · by_cases hy : y < 0
    · simp only [hx, hy, if_true]
      have h1 : |y| ≤ |x| := by
        rw [abs_of_neg hx, abs_of_neg hy]; linarith
      have := roundMag_mono m emin (abs_nonneg y) h1
      linarith
    · simp only [hx, hy, if_true, if_false]
      have h1 := roundMag_nonneg m emin (abs_nonneg x)
      have h2 := roundMag_nonneg m emin (abs_nonneg y)
      linarith
  · have hy : ¬ y < 0 := by
      intro hc; exact hx (lt_of_le_of_lt h hc)
    simp only [hx, hy, if_false]
    have h1 : |x| ≤ |y| := by
      rw [abs_of_nonneg (not_lt.mp hx), abs_of_nonneg (not_lt.mp hy)]; exact h
    exact roundMag_mono m emin (abs_nonneg x) h1

theorem log_eq_of_binade {a : ℚ} {e : Int} (h1 : (2 : ℚ) ^ e ≤ a) (h2 : a < 2 ^ (e + 1)) :
    Int.log 2 a = e := by
  have ha : 0 < a := lt_of_lt_of_le (by positivity) h1
  have l1 : e ≤ Int.log 2 a :=
    (Int.zpow_le_iff_le_log (R := ℚ) (b := 2) (by norm_num) ha).mp (by simpa using h1)
  have l2 : Int.log 2 a < e + 1 :=
    (Int.lt_zpow_iff_log_lt (R := ℚ) (b := 2) (by norm_num) ha).mp (by simpa using h2)
  omega

/-- Rounding of a positive number whose binade is known. -/
theorem roundBinary_pos_eval (m : Nat) (emin : Int) {q : ℚ} (e n : Int)
    (h1 : (2 : ℚ) ^ e ≤ q) (h2 : q < 2 ^ (e + 1)) (he : emin ≤ e)
    (hn : roundNE (q / 2 ^ (e - (m : Int))) = n) :
    roundBinary m emin q = n * 2 ^ (e - (m : Int)) := by
  have hq : 0 < q := lt_of_lt_of_le (by positivity) h1
  have hlog := log_eq_of_binade h1 h2
  have hu : ulpOf m emin q = 2 ^ (e - (m : Int)) := by
    unfold ulpOf; rw [hlog, max_eq_left he]
  unfold roundBinary
  rw [if_neg (not_lt.mpr (le_of_lt hq)), abs_of_pos hq]
  unfold roundMag
  rw [hu, hn]

theorem roundBinary_neg (m : Nat) (emin : Int) {q : ℚ} (hq : 0 < q) :
    roundBinary m emin (-q) = -roundBinary m emin q := by
  unfold roundBinary
  rw [if_pos (by linarith : -q < 0), if_neg (not_lt.mpr (le_of_lt hq)), abs_neg]

theorem roundBinary_zero (m : Nat) (emin : Int) : roundBinary m emin 0 = 0 := by
  unfold roundBinary
  simp [roundMag_zero]

theorem roundBinary_nonneg (m : Nat) (emin : Int) {q : ℚ} (hq : 0 ≤ q) :
    0 ≤ roundBinary m emin q := by
  have := roundBinary_mono m emin hq
  rwa [roundBinary_zero] at this

theorem roundBinary_nonpos (m : Nat) (emin : Int) {q : ℚ} (hq : q ≤ 0) :
    roundBinary m emin q ≤ 0 := by
  have := roundBinary_mono m emin hq
  rwa [roundBinary_zero] at this

/-- A value that is a whole number of units in the last place is its own rounding. -/
theorem roundBinary_exact (m : Nat) (emin : Int) {q : ℚ} (e k : Int)
    (h1 : (2 : ℚ) ^ e ≤ q) (h2 : q < 2 ^ (e + 1)) (he : emin ≤ e)
    (hk : q = k * 2 ^ (e - (m : Int))) :
    roundBinary m emin q = q := by
  have hp : (0 : ℚ) < 2 ^ (e - (m : Int)) := by positivity
  have hn : roundNE (q / 2 ^ (e - (m : Int))) = k := by
    have : q / 2 ^ (e - (m : Int)) = (k : ℚ) := by
      rw [hk]; field_simp
    rw [this, roundNE_intCast]
  rw [roundBinary_pos_eval m emin e k h1 h2 he hn, ← hk]

/-- The relative error of rounding in the normal range is at most `2^-(m+1)`. -/
theorem roundBinary_error (m : Nat) (emin : Int) {q : ℚ} (hq : (2 : ℚ) ^ emin ≤ |q|) :
    |roundBinary m emin q - q| ≤ |q| / 2 ^ (m + 1) := by
  have ha : 0 < |q| := lt_of_lt_of_le (by positivity) hq
  have hlog : emin ≤ Int.log 2 |q| :=
    (Int.zpow_le_iff_le_log (R := ℚ) (b := 2) (by norm_num) ha).mp (by simpa using hq)
  have hu : ulpOf m emin |q| = 2 ^ (Int.log 2 |q| - (m : Int)) := by
    unfold ulpOf; rw [max_eq_left hlog]
  have hup := ulpOf_pos m emin |q|
  have hlow : (2 : ℚ) ^ (Int.log 2 |q|) ≤ |q| := by
    have := Int.zpow_log_le_self (R := ℚ) (b := 2) (by norm_num) ha
    simpa using this
  have hule : ulpOf m emin |q| * 2 ^ m ≤ |q| := by
    rw [hu, ← zpow_natCast, ← zpow_add₀ (by norm_num : (2 : ℚ) ≠ 0)]
    have : Int.log 2 |q| - (m : Int) + (m : Int) = Int.log 2 |q| := by ring
    rw [this]; exact hlow
  have hnear := roundNE_near (|q| / ulpOf m emin |q|)
  have hmag : abs (roundMag m emin (abs q) - abs q) ≤ ulpOf m emin |q| / 2 := by
    unfold roundMag
    have e1 : (roundNE (|q| / ulpOf m emin |q|) : ℚ) * ulpOf m emin |q| - |q|
        = ((roundNE (|q| / ulpOf m emin |q|) : ℚ) - |q| / ulpOf m emin |q|)
            * ulpOf m emin |q| := by
      field_simp
    rw [e1, abs_mul, abs_of_pos hup]
    have : abs ((roundNE (|q| / ulpOf m emin |q|) : ℚ) - (abs q) / ulpOf m emin |q|) ≤ 1 / 2 := by
      rw [abs_le]; constructor <;> linarith [hnear.1, hnear.2]
    calc _ ≤ (1 / 2) * ulpOf m emin |q| := mul_le_mul_of_nonneg_right this (le_of_lt hup)
      _ = ulpOf m emin |q| / 2 := by ring
  have hbound : ulpOf m emin |q| / 2 ≤ |q| / 2 ^ (m + 1) := by
    rw [div_le_div_iff₀ (by norm_num) (by positivity)]
    have : ulpOf m emin |q| * 2 ^ (m + 1) = (ulpOf m emin |q| * 2 ^ m) * 2 := by
      rw [pow_succ]; ring
    rw [this]
    linarith
  have hsign : |roundBinary m emin q - q| = abs (roundMag m emin (abs q) - abs q) := by
    unfold roundBinary
    by_cases hneg : q < 0
    · rw [if_pos hneg, abs_of_neg hneg]
      rw [show -roundMag m emin (-q) - q = -(roundMag m emin (-q) - -q) by ring, abs_neg]
    · rw [if_neg hneg, abs_of_nonneg (not_lt.mp hneg)]
  rw [hsign]
  exact le_trans hmag hbound

/-- A positive integer of at most `m + 1` bits (or `2^(m+1)` itself) is its own rounding. -/
theorem roundBinary_int_pos (m : Nat) (emin : Int) (hemin : emin ≤ 0) (n : Int) (hn : 0 < n)
    (hle : n ≤ 2 ^ (m + 1)) : roundBinary m emin (n : ℚ) = n := by
  have hq : (0 : ℚ) < n := by exact_mod_cast hn
  have h1 : (2 : ℚ) ^ (Int.log 2 (n : ℚ)) ≤ n := by
    have := Int.zpow_log_le_self (R := ℚ) (b := 2) (by norm_num) hq
    simpa using this
  have h2 : (n : ℚ) < 2 ^ (Int.log 2 (n : ℚ) + 1) := by
    have := Int.lt_zpow_succ_log_self (R := ℚ) (b := 2) (by norm_num) (n : ℚ)
    simpa using this
  have he0 : 0 ≤ Int.log 2 (n : ℚ) := by
    apply (Int.zpow_le_iff_le_log (R := ℚ) (b := 2) (by norm_num) hq).mp
    have : (1 : ℚ) ≤ n := by exact_mod_cast hn
    simpa using this
  have hleq : (n : ℚ) ≤ 2 ^ (m + 1) := by exact_mod_cast hle
  have hem : Int.log 2 (n : ℚ) < (m : Int) + 2 := by
    apply (Int.lt_zpow_iff_log_lt (R := ℚ) (b := 2) (by norm_num) hq).mp
    have h3 : (2 : ℚ) ^ (m + 1) < 2 ^ ((m : Int) + 2) := by
      rw [← zpow_natCast]
      exact zpow_lt_zpow_right₀ (by norm_num) (by push_cast; omega)
    have := lt_of_le_of_lt hleq h3
    simpa using this
  rcases le_or_lt (Int.log 2 (n : ℚ)) (m : Int) with hc | hc
  · apply roundBinary_exact m emin (Int.log 2 (n : ℚ))
      (n * 2 ^ ((m : Int) - Int.log 2 (n : ℚ)).toNat) h1 h2 (by omega)
    push_cast
    rw [mul_assoc, ← zpow_natCast, ← zpow_add₀ (by norm_num : (2 : ℚ) ≠ 0),
      Int.toNat_of_nonneg (by omega)]
    simp
  · have he : Int.log 2 (n : ℚ) = (m : Int) + 1 := by omega
    have hpow : (2 : ℚ) ^ ((m : Int) + 1) = 2 ^ (m + 1) := by
      rw [← zpow_natCast]; push_cast; rfl
    have hn2 : (n : ℚ) = 2 ^ (m + 1) := by
      apply le_antisymm hleq
      rw [he, hpow] at h1
      exact h1
    apply roundBinary_exact m emin (Int.log 2 (n : ℚ)) (2 ^ m) h1 h2 (by omega)
    rw [he]
    push_cast
    rw [hn2, show (m : Int) + 1 - (m : Int) = 1 by ring]
    rw [pow_succ]
    simp

/-- Every integer of magnitude at most `2^24` is a binary32 value. -/
theorem fl32_int (n : Int) (h : |n| ≤ 16777216) : fl32 (n : ℚ) = n := by
  unfold fl32
  rcases lt_trichotomy n 0 with hneg | h0 | hpos
  · have hp : 0 < -n := by omega
    have hle : -n ≤ 2 ^ (23 + 1) := by
      rw [abs_of_neg hneg] at h; norm_num; exact h
    have := roundBinary_int_pos 23 (-126) (by norm_num) (-n) hp hle
    have hq : (0 : ℚ) < ((-n : Int) : ℚ) := by exact_mod_cast hp
    have h2 := roundBinary_neg 23 (-126) hq
    rw [this] at h2
    push_cast at h2
    rw [neg_neg] at h2
    exact h2
  · rw [h0]; simpa using roundBinary_zero 23 (-126)
  · have hle : n ≤ 2 ^ (23 + 1) := by
      rw [abs_of_pos hpos] at h; norm_num; exact h
    exact roundBinary_int_pos 23 (-126) (by norm_num) n hpos hle

theorem fl32_mono {x y : ℚ} (h : x ≤ y) : fl32 x ≤ fl32 y := roundBinary_mono 23 (-126) h

theorem fl64_mono {x y : ℚ} (h : x ≤ y) : fl64 x ≤ fl64 y := roundBinary_mono 52 (-1022) h

theorem fl32_zero : fl32 0 = 0 := roundBinary_zero 23 (-126)

theorem fl64_zero : fl64 0 = 0 := roundBinary_zero 52 (-1022)

theorem fl32_error {q : ℚ} (hq : 1 / 4000000 ≤ |q|) : |fl32 q - q| ≤ |q| / 16777216 := by
  have h : (2 : ℚ) ^ (-126 : Int) ≤ |q| := le_trans (by norm_num) hq
  have := roundBinary_error 23 (-126) h
  norm_num at this
  exact this

theorem fl64_error {q : ℚ} (hq : 1 / 4000000 ≤ |q|) :
    |fl64 q - q| ≤ |q| / 9007199254740992 := by
  have h : (2 : ℚ) ^ (-1022 : Int) ≤ |q| := le_trans (by norm_num) hq
  have := roundBinary_error 52 (-1022) h
  norm_num at this
  exact this

/-- A value within a relative `r <= 1/2` of `x` has magnitude between `|x|/2` and `2|x|`. -/
theorem abs_near {x y r : ℚ} (h : |y - x| ≤ r) (hr : r ≤ |x| / 2) :
    |x| / 2 ≤ |y| ∧ |y| ≤ 2 * |x| := by
  have h1 : |x| - |y| ≤ |y - x| := by
    rw [abs_sub_comm y x]; exact abs_sub_abs_le_abs_sub x y
  have h2 : |y| - |x| ≤ |y - x| := abs_sub_abs_le_abs_sub y x
  have h0 := abs_nonneg x
  constructor <;> linarith

/-- The three roundings of `GetDtS` keep the quotient within a relative `2^-21`. -/
theorem seconds_error (D : Int) :
    |fl32 (fl64 (fl32 (D : ℚ) / 1000000)) - (D : ℚ) / 1000000|
      ≤ |(D : ℚ) / 1000000| / 2097152 := by
  by_cases hD : D = 0
  · subst hD
    simp [fl32_zero, fl64_zero]
  · have hd1 : (1 : ℚ) ≤ |(D : ℚ)| := by
      have : (1 : Int) ≤ |D| := Int.one_le_abs hD
      exact_mod_cast this
    have hd0 : (0 : ℚ) ≤ |(D : ℚ)| := abs_nonneg _
    have e1 := fl32_error (q := (D : ℚ)) (by linarith)
    have n1 := abs_near e1 (by linarith)
    have hc : |fl32 (D : ℚ) / 1000000| = |fl32 (D : ℚ)| / 1000000 := by
      rw [abs_div]; norm_num
    have hcd : |fl32 (D : ℚ) / 1000000 - (D : ℚ) / 1000000| = |fl32 (D : ℚ) - D| / 1000000 := by
      rw [← sub_div, abs_div]; norm_num
    have hu : |(D : ℚ) / 1000000| = |(D : ℚ)| / 1000000 := by
      rw [abs_div]; norm_num
    have e2 := fl64_error (q := fl32 (D : ℚ) / 1000000) (by rw [hc]; linarith [n1.1])
    have n2 := abs_near e2 (by
      have := abs_nonneg (fl32 (D : ℚ) / 1000000); linarith)
    have e3 := fl32_error (q := fl64 (fl32 (D : ℚ) / 1000000)) (by
      rw [hc] at n2; linarith [n2.1, n1.1])
    have t1 := abs_sub_le (fl32 (fl64 (fl32 (D : ℚ) / 1000000)))
      (fl64 (fl32 (D : ℚ) / 1000000)) ((D : ℚ) / 1000000)
    have t2 := abs_sub_le (fl64 (fl32 (D : ℚ) / 1000000))
      (fl32 (D : ℚ) / 1000000) ((D : ℚ) / 1000000)
    rw [hcd] at t2
    rw [hu]
    rw [hc] at n2 e2
    linarith [n1.1, n1.2, n2.1, n2.2]

/-- Evaluation of a rounding away from a tie. -/
theorem roundBinary_eval (m : Nat) (emin : Int) {q v : ℚ} (e n : Int)
    (h1 : (2 : ℚ) ^ e ≤ q) (h2 : q < 2 ^ (e + 1)) (he : emin ≤ e)
    (hlo : (n : ℚ) - 1 / 2 < q / 2 ^ (e - (m : Int)))
    (hhi : q / 2 ^ (e - (m : Int)) < n + 1 / 2)
    (hv : v = n * 2 ^ (e - (m : Int))) :
    roundBinary m emin q = v := by
  rw [hv]
  exact roundBinary_pos_eval m emin e n h1 h2 he (roundNE_eq_of_lt n hlo hhi)

/-- Evaluation of a rounding at a tie with an even lower neighbour. -/
theorem roundBinary_eval_tie (m : Nat) (emin : Int) {q v : ℚ} (e n : Int)
    (h1 : (2 : ℚ) ^ e ≤ q) (h2 : q < 2 ^ (e + 1)) (he : emin ≤ e)
    (ht : q / 2 ^ (e - (m : Int)) = n + 1 / 2) (hn : n % 2 = 0)
    (hv : v = n * 2 ^ (e - (m : Int))) :
    roundBinary m emin q = v := by
  rw [hv]
  apply roundBinary_pos_eval m emin e n h1 h2 he
  rw [roundNE_tie n ht, if_pos hn]

theorem fl32_32000001 : fl32 32000001 = 32000000 :=
  roundBinary_eval_tie 23 (-126) 24 16000000 (by norm_num) (by norm_num) (by norm_num)
    (by norm_num) (by decide) (by norm_num)

theorem fl32_32000000 : fl32 32000000 = 32000000 :=
  roundBinary_eval 23 (-126) 24 16000000 (by norm_num) (by norm_num) (by norm_num)
    (by norm_num) (by norm_num) (by norm_num)

theorem fl32_16777217 : fl32 16777217 = 16777216 :=
  roundBinary_eval_tie 23 (-126) 24 8388608 (by norm_num) (by norm_num) (by norm_num)
    (by norm_num) (by decide) (by norm_num)

theorem fl32_2147483647 : fl32 2147483647 = 2147483648 :=
  roundBinary_eval 23 (-126) 30 16777216 (by norm_num) (by norm_num) (by norm_num)
    (by norm_num) (by norm_num) (by norm_num)

theorem fl32_2147483648 : fl32 2147483648 = 2147483648 :=
  roundBinary_eval 23 (-126) 31 8388608 (by norm_num) (by norm_num) (by norm_num)
    (by norm_num) (by norm_num) (by norm_num)

/-- The `GetDtS` roundings of 200000 microseconds. -/
theorem seconds_200000 : fl32 (fl64 (200000 / 1000000)) = 13421773 / 67108864 := by
  have h1 : fl64 (200000 / 1000000) = 3602879701896397 / 18014398509481984 :=
    roundBinary_eval 52 (-1022) (-3) 7205759403792794 (by norm_num) (by norm_num) (by norm_num)
      (by norm_num) (by norm_num) (by norm_num)
  rw [h1]
  exact roundBinary_eval 23 (-126) (-3) 13421773 (by norm_num) (by norm_num) (by norm_num)
    (by norm_num) (by norm_num) (by norm_num)

/-- The `GetDtS` roundings of the float 16777216 microseconds. -/
theorem seconds_16777216 : fl32 (fl64 (16777216 / 1000000)) = 8796093 / 524288 := by
  have h1 : fl64 (16777216 / 1000000) = 4722366482869645 / 281474976710656 :=
    roundBinary_eval 52 (-1022) 4 4722366482869645 (by norm_num) (by norm_num) (by norm_num)
      (by norm_num) (by norm_num) (by norm_num)
  rw [h1]
  exact roundBinary_eval 23 (-126) 4 8796093 (by norm_num) (by norm_num) (by norm_num)
    (by norm_num) (by norm_num) (by norm_num)

/-- The `GetDtS` roundings of the float 2147483648 microseconds. -/
theorem seconds_2147483648 : fl32 (fl64 (2147483648 / 1000000)) = 8796093 / 4096 := by
  have h1 : fl64 (2147483648 / 1000000) = 4722366482869645 / 2199023255552 :=
    roundBinary_eval 52 (-1022) 11 4722366482869645 (by norm_num) (by norm_num) (by norm_num)
      (by norm_num) (by norm_num) (by norm_num)
  rw [h1]
  exact roundBinary_eval 23 (-126) 11 8796093 (by norm_num) (by norm_num) (by norm_num)
    (by norm_num) (by norm_num) (by norm_num)

theorem fl32_neg {q : ℚ} (hq : 0 < q) : fl32 (-q) = -fl32 q := roundBinary_neg 23 (-126) hq

theorem fl64_neg {q : ℚ} (hq : 0 < q) : fl64 (-q) = -fl64 q := roundBinary_neg 52 (-1022) hq

theorem seconds_neg_2147483648 :
    fl32 (fl64 (fl32 (-2147483648) / 1000000)) = -(8796093 / 4096) := by
  rw [fl32_neg (by norm_num), fl32_2147483648, neg_div, fl64_neg (by norm_num)]
  have hpos : (0 : ℚ) < fl64 (2147483648 / 1000000) := by
    have h1 : fl64 (2147483648 / 1000000) = 4722366482869645 / 2199023255552 :=
      roundBinary_eval 52 (-1022) 11 4722366482869645 (by norm_num) (by norm_num) (by norm_num)
        (by norm_num) (by norm_num) (by norm_num)
    rw [h1]; norm_num
  rw [fl32_neg hpos, seconds_2147483648]

/-! Shape of the operations -/

/-- The flag returned by `CheckExpired` is the strict comparison, between
`float`s, of the wrapped distance with the period in microseconds. -/
theorem CheckExpired_fst (self : Timing) (t : timeval) :
    (self.CheckExpired t).1
      = decide (fl32 ((wrap32 (micros t - micros self.epoch) : Int) : ℚ)
          > fl32 (self.period * 1000000)) := by
  have h := int_diff_eq self t
  unfold Timing.CheckExpired
  simp only [h]
  by_cases hc : fl32 ((wrap32 (micros t - micros self.epoch) : Int) : ℚ)
      > fl32 (self.period * 1000000)
  · simp [hc]
  · simp [hc]

/-- The state after `CheckExpired` is the state before with the returned flag
stored in `expired`. -/
theorem CheckExpired_snd (self : Timing) (t : timeval) :
    (self.CheckExpired t).2 = { self with expired := (self.CheckExpired t).1 } := by
  unfold Timing.CheckExpired
  simp only []
  split <;> rfl

theorem CheckExpired_true_iff (self : Timing) (t : timeval) :
    (self.CheckExpired t).1 = true
      ↔ fl32 ((wrap32 (micros t - micros self.epoch) : Int) : ℚ)
          > fl32 (self.period * 1000000) := by
  rw [CheckExpired_fst]; simp

theorem CheckExpired_false_iff (self : Timing) (t : timeval) :
    (self.CheckExpired t).1 = false
      ↔ fl32 ((wrap32 (micros t - micros self.epoch) : Int) : ℚ)
          ≤ fl32 (self.period * 1000000) := by
  rw [CheckExpired_fst]; simp

theorem CheckExpired_period (self : Timing) (t : timeval) :
    (self.CheckExpired t).2.period = self.period := by
  rw [CheckExpired_snd]

theorem CheckExpired_epoch (self : Timing) (t : timeval) :
    (self.CheckExpired t).2.s = self.s ∧ (self.CheckExpired t).2.us = self.us := by
  rw [CheckExpired_snd]; exact ⟨rfl, rfl⟩

/-- The result of `CheckExpired` depends on the state only through the epoch
and the period. -/
theorem CheckExpired_congr (a b : Timing) (t : timeval)
    (hs : a.s = b.s) (hus : a.us = b.us) (hp : a.period = b.period) :
    a.CheckExpired t = b.CheckExpired t := by
  have h1 : (a.CheckExpired t).1 = (b.CheckExpired t).1 := by
    rw [CheckExpired_fst, CheckExpired_fst]
    simp only [Timing.epoch, hs, hus, hp]
  have h2 : (a.CheckExpired t).2 = (b.CheckExpired t).2 := by
    rw [CheckExpired_snd, CheckExpired_snd, h1]
    cases a; cases b
    simp only [Timing.mk.injEq] at *
    simp_all
  exact Prod.ext h1 h2

/-- A check at the epoch itself reports `false` for a non-negative period. -/
theorem CheckExpired_at_epoch (self : Timing) (t : timeval) (hP : 0 ≤ self.period)
    (he : micros t = micros self.epoch) : (self.CheckExpired t).1 = false := by
  rw [CheckExpired_false_iff, he, sub_self]
  have h0 : wrap32 0 = 0 := by decide
  rw [h0]
  have h1 : (0 : ℚ) ≤ self.period * 1000000 := by positivity
  have h2 := fl32_mono h1
  rw [fl32_zero] at h2
  simpa [fl32_zero] using h2

/-- A check that reports `true` has seen a distance above the period: rounding
to `float` never reverses an order. -/
theorem CheckExpired_true_sound (self : Timing) (t : timeval)
    (h : (self.CheckExpired t).1 = true) :
    ((wrap32 (micros t - micros self.epoch) : Int) : ℚ) > self.period * 1000000 := by
  rw [CheckExpired_true_iff] at h
  by_contra hc
  have := fl32_mono (not_lt.mp hc)
  exact absurd h (not_lt.mpr this)

/-! Claims -/

/-- C1 as stated fails: with period `32 s` and epoch `(0 s, 0 us)` the reading
`(32 s, 1 us)` is 32000001 microseconds after the epoch, within the range of
`int` and above `32 * 1000000`, and `CheckExpired` returns `false`: the
conversion of `32000001` to `float` is `32000000`. -/
theorem CheckExpired_exact_strict_fails :
    (-2147483648 ≤ micros ⟨32, 1⟩ - micros (Timing.mk 0 0 32 false).epoch
        ∧ micros ⟨32, 1⟩ - micros (Timing.mk 0 0 32 false).epoch < 2147483648)
      ∧ ((micros ⟨32, 1⟩ - micros (Timing.mk 0 0 32 false).epoch : Int) : ℚ)
          > (Timing.mk 0 0 32 false).period * 1000000
      ∧ ((Timing.mk 0 0 32 false).CheckExpired ⟨32, 1⟩).1 = false := by
  refine ⟨⟨by decide, by decide⟩, ?_, ?_⟩
  · have h : micros ⟨32, 1⟩ - micros (Timing.mk 0 0 32 false).epoch = 32000001 := by decide
    rw [h]; norm_num
  · rw [CheckExpired_false_iff]
    have h : wrap32 (micros ⟨32, 1⟩ - micros (Timing.mk 0 0 32 false).epoch) = 32000001 := by
      decide
    rw [h]
    have h1 : ((32000001 : Int) : ℚ) = 32000001 := by norm_num
    have h2 : (Timing.mk 0 0 32 false).period * 1000000 = 32000000 := by norm_num
    rw [h1, h2, fl32_32000001, fl32_32000000]

/-- C1, amended: `CheckExpired` is a strict greater-than test between `float`s.
For every timer state and every clock reading whose distance `D` from the epoch
in microseconds lies in `[-2^31, 2^31)`: the call returns `true` exactly when
`D` rounded to `float` exceeds `period * 1000000` rounded to `float`; it returns
`true` only if `D > period * 1000000`, so a distance equal to the period returns
`false`; and a distance above the period (the period plus any `e > 0`) returns
`true` when `D` and `period * 1000000` are `float` values, as every `D` of
magnitude at most `2^24` is. -/
theorem CheckExpired_strict_rounded (self : Timing) (t : timeval)
    (hlo : -2147483648 ≤ micros t - micros self.epoch)
    (hhi : micros t - micros self.epoch < 2147483648) :
    ((self.CheckExpired t).1 = true
        ↔ fl32 ((micros t - micros self.epoch : Int) : ℚ) > fl32 (self.period * 1000000))
      ∧ ((self.CheckExpired t).1 = true
          → ((micros t - micros self.epoch : Int) : ℚ) > self.period * 1000000)
      ∧ (((micros t - micros self.epoch : Int) : ℚ) = self.period * 1000000
          → (self.CheckExpired t).1 = false)
      ∧ (((micros t - micros self.epoch : Int) : ℚ) > self.period * 1000000
          → fl32 ((micros t - micros self.epoch : Int) : ℚ)
              = ((micros t - micros self.epoch : Int) : ℚ)
          → fl32 (self.period * 1000000) = self.period * 1000000
          → (self.CheckExpired t).1 = true)
      ∧ (∀ e : ℚ, 0 < e
          → ((micros t - micros self.epoch : Int) : ℚ) = (self.period + e) * 1000000
          → fl32 ((micros t - micros self.epoch : Int) : ℚ)
              = ((micros t - micros self.epoch : Int) : ℚ)
          → fl32 (self.period * 1000000) = self.period * 1000000
          → (self.CheckExpired t).1 = true)
      ∧ (|micros t - micros self.epoch| ≤ 16777216
          → fl32 ((micros t - micros self.epoch : Int) : ℚ)
              = ((micros t - micros self.epoch : Int) : ℚ)) := by
  have hw := wrap32_of_range _ hlo hhi
  have hsound : (self.CheckExpired t).1 = true
      → ((micros t - micros self.epoch : Int) : ℚ) > self.period * 1000000 := by
    intro h
    have := CheckExpired_true_sound self t h
    rwa [hw] at this
  have hrep : ((micros t - micros self.epoch : Int) : ℚ) > self.period * 1000000
      → fl32 ((micros t - micros self.epoch : Int) : ℚ)
          = ((micros t - micros self.epoch : Int) : ℚ)
      → fl32 (self.period * 1000000) = self.period * 1000000
      → (self.CheckExpired t).1 = true := by
    intro hgt h1 h2
    rw [CheckExpired_true_iff, hw, h1, h2]
    exact hgt
  refine ⟨?_, hsound, ?_, hrep, ?_, fun h => fl32_int _ h⟩
  · rw [CheckExpired_true_iff, hw]
  · intro h
    cases hb : (self.CheckExpired t).1
    · rfl
    · exact absurd (hsound hb) (not_lt.mpr (le_of_eq h))
  · intro e he h h1 h2
    apply hrep _ h1 h2
    rw [h]
    nlinarith

/-- Witness of C1: epoch `(10 s, 0 us)`, period `2 s`; the reading `(12 s, 0 us)`
is exactly one period later and is not expired. -/
theorem CheckExpired_strict_rounded_witness :
    ((Timing.mk 10 0 2 false).CheckExpired ⟨12, 0⟩).1 = false :=
  (CheckExpired_strict_rounded ⟨10, 0, 2, false⟩ ⟨12, 0⟩ (by decide) (by decide)).2.2.1
    (by norm_num [micros, Timing.epoch])

/-- C2 as stated fails: with period `32 s` constructed at `(0 s, 0 us)`, the
reading `(32 s, 1 us)` is an advance of 32.000001 s, more than the period and
within the range of `int`, and the check at that reading returns `false`. -/
theorem lifecycle_exact_advance_fails :
    (0 : ℚ) < 32
      ∧ (32 : ℚ) * 1000000 < ((micros ⟨32, 1⟩ - micros ⟨0, 0⟩ : Int) : ℚ)
      ∧ micros ⟨32, 1⟩ - micros ⟨0, 0⟩ < 2147483648
      ∧ (((Timing.ctor 32 ⟨0, 0⟩).CheckExpired ⟨0, 0⟩).2.CheckExpired ⟨32, 1⟩).1 = false := by
  have hm : micros ⟨32, 1⟩ - micros ⟨0, 0⟩ = 32000001 := by decide
  refine ⟨by norm_num, by rw [hm]; norm_num, by decide, ?_⟩
  have hc := CheckExpired_congr ((Timing.ctor 32 ⟨0, 0⟩).CheckExpired ⟨0, 0⟩).2
    (Timing.ctor 32 ⟨0, 0⟩) ⟨32, 1⟩ (CheckExpired_epoch _ _).1 (CheckExpired_epoch _ _).2
    (CheckExpired_period _ _)
  rw [hc, CheckExpired_false_iff]
  have h : wrap32 (micros ⟨32, 1⟩ - micros (Timing.ctor 32 ⟨0, 0⟩).epoch) = 32000001 := by
    decide
  have hp : (Timing.ctor 32 ⟨0, 0⟩).period = 32 := rfl
  rw [h, hp]
  have h1 : ((32000001 : Int) : ℚ) = 32000001 := by norm_num
  have h2 : (32 : ℚ) * 1000000 = 32000000 := by norm_num
  rw [h1, h2, fl32_32000001, fl32_32000000]

/-- C2, amended: lifecycle.  For a period `P > 0` with `P * 1000000` a `float`
value, a construction reading `t0` and a later reading `t1` more than `P`
seconds after `t0`, the distance in microseconds a `float` value below `2^31`
(as every distance of at most `2^24` microseconds is): the check at `t0`
returns `false`, the check at `t1` returns `true`, and after `Set` at `t1` the
check at `t1` returns `false` again.  After `Set` or construction at any
reading, the check at that reading returns `false` whatever the state was
before. -/
theorem lifecycle_representable (P : ℚ) (t0 t1 : timeval) (hP : 0 < P)
    (hd : P * 1000000 < ((micros t1 - micros t0 : Int) : ℚ))
    (hr : micros t1 - micros t0 < 2147483648)
    (hfd : fl32 ((micros t1 - micros t0 : Int) : ℚ) = ((micros t1 - micros t0 : Int) : ℚ))
    (hfp : fl32 (P * 1000000) = P * 1000000) :
    ((Timing.ctor P t0).CheckExpired t0).1 = false
      ∧ (((Timing.ctor P t0).CheckExpired t0).2.CheckExpired t1).1 = true
      ∧ (((((Timing.ctor P t0).CheckExpired t0).2.CheckExpired t1).2.Set t1).CheckExpired t1).1
          = false
      ∧ (∀ (prev : Timing) (t : timeval), 0 < prev.period
          → ((prev.Set t).CheckExpired t).1 = false)
      ∧ (∀ t : timeval, ((Timing.ctor P t).CheckExpired t).1 = false)
      ∧ (∀ (a b : timeval), |micros b - micros a| ≤ 16777216
          → fl32 ((micros b - micros a : Int) : ℚ) = ((micros b - micros a : Int) : ℚ)) := by
  have hgen : ∀ (prev : Timing) (t : timeval), 0 ≤ prev.period
      → ((prev.Set t).CheckExpired t).1 = false := by
    intro prev t hp
    exact CheckExpired_at_epoch (prev.Set t) t hp rfl
  have hctor : ∀ t : timeval, ((Timing.ctor P t).CheckExpired t).1 = false := by
    intro t
    exact CheckExpired_at_epoch (Timing.ctor P t) t (le_of_lt hP) rfl
  refine ⟨hctor t0, ?_, ?_, fun prev t hp => hgen prev t (le_of_lt hp), hctor,
    fun a b h => fl32_int _ h⟩
  · rw [CheckExpired_true_iff, CheckExpired_snd]
    have hpos : (0 : ℚ) < ((micros t1 - micros t0 : Int) : ℚ) := by
      have : (0 : ℚ) < P * 1000000 := by positivity
      linarith
    have hpos2 : 0 < micros t1 - micros t0 := by exact_mod_cast hpos
    have hw : wrap32 (micros t1 - micros t0) = micros t1 - micros t0 :=
      wrap32_of_range _ (by omega) hr
    show fl32 ((wrap32 (micros t1 - micros t0) : Int) : ℚ) > fl32 (P * 1000000)
    rw [hw, hfd, hfp]
    exact hd
  · apply hgen
    rw [CheckExpired_snd, CheckExpired_snd]
    exact le_of_lt hP

/-- Witness of C2: period `2.0 s`, constructed at `(100 s, 0 us)`, advanced by
`2.5 s` to `(102 s, 500000 us)`. -/
theorem lifecycle_representable_witness :
    ((Timing.ctor 2 ⟨100, 0⟩).CheckExpired ⟨100, 0⟩).1 = false
      ∧ (((Timing.ctor 2 ⟨100, 0⟩).CheckExpired ⟨100, 0⟩).2.CheckExpired ⟨102, 500000⟩).1 = true
      ∧ (((((Timing.ctor 2 ⟨100, 0⟩).CheckExpired ⟨100, 0⟩).2.CheckExpired
            ⟨102, 500000⟩).2.Set ⟨102, 500000⟩).CheckExpired ⟨102, 500000⟩).1 = false :=
  have h := lifecycle_representable 2 ⟨100, 0⟩ ⟨102, 500000⟩ (by norm_num)
    (by norm_num [micros]) (by decide) (fl32_int _ (by decide))
    (by
      have h2 : (2 : ℚ) * 1000000 = ((2000000 : Int) : ℚ) := by norm_num
      rw [h2]
      exact fl32_int 2000000 (by decide))
  ⟨h.1, h.2.1, h.2.2.1⟩

/-- On the branch `t.tv_usec <= us` (the `else` of `GetDt`) the result is the
wrapped difference epoch minus reading. -/
theorem GetDtOutcome_of_le (self : Timing) (t : timeval) (h : t.tv_usec ≤ self.us) :
    self.GetDtOutcome t = some (wrap32 (micros self.epoch - micros t)) := by
  have hn : ¬ t.tv_usec > self.us := not_lt.mpr h
  unfold Timing.GetDtOutcome
  simp only [hn, if_false]
  rw [wrap32_mul_add]
  congr 2
  simp only [micros, Timing.epoch]
  ring

/-- `GetDtS` is the wrapped distance from the epoch to the reading, converted to
`float`, divided by one million in `double` and converted to `float`. -/
theorem GetDtS_eq (self : Timing) (t : timeval) :
    self.GetDtS t
      = fl32 (fl64 (fl32 ((wrap32 (micros t - micros self.epoch) : Int) : ℚ) / 1000000)) := by
  unfold Timing.GetDtS
  simp only [int_diff_eq]

/-- The three roundings of `GetDtS` preserve the order of the distances. -/
theorem seconds_mono {a b : Int} (h : a ≤ b) :
    fl32 (fl64 (fl32 (a : ℚ) / 1000000)) ≤ fl32 (fl64 (fl32 (b : ℚ) / 1000000)) := by
  have h1 : (a : ℚ) ≤ (b : ℚ) := by exact_mod_cast h
  have h2 := fl32_mono h1
  have h3 : fl32 (a : ℚ) / 1000000 ≤ fl32 (b : ℚ) / 1000000 :=
    div_le_div_of_nonneg_right h2 (by norm_num)
  exact fl32_mono (fl64_mono h3)

/-- The three roundings of `GetDtS` send zero to zero. -/
theorem seconds_zero : fl32 (fl64 (fl32 ((0 : Int) : ℚ) / 1000000)) = 0 := by
  simp [fl32_zero, fl64_zero]

/-- C3 (the code departs from the claim): with epoch `(10 s, 100000 us)` the
reading `(10 s, 500000 us)`, which is 400000 microseconds later, makes `GetDt`
return `600000` and not `-400000`; the reading `(11 s, 500000 us)` reaches
`return TIMING_ERROR`. -/
theorem GetDt_later_reading_eval :
    micros (Timing.mk 10 100000 1 false).epoch < micros ⟨10, 500000⟩
      ∧ micros (Timing.mk 10 100000 1 false).epoch - micros ⟨10, 500000⟩ = -400000
      ∧ (Timing.mk 10 100000 1 false).GetDtOutcome ⟨10, 500000⟩ = some 600000
      ∧ (Timing.mk 10 100000 1 false).GetDtOutcome ⟨11, 500000⟩ = none := by
  refine ⟨by decide, by decide, by decide, by decide⟩

/-- C4 as stated fails: with epoch `(0 s, 900000 us)` and reading
`(5000 s, 100000 us)` the true elapsed time is 4999200000 microseconds while
`GetDt` returns `-704232704`; and the sign varies, the reading
`(3000 s, 100000 us)` giving a positive result and, for epoch
`(10 s, 900000 us)`, the reading `(11 s, 100000 us)` a negative one. -/
theorem GetDt_boundary_unbounded_fails :
    ((5000 : Int) > 0 ∧ (100000 : Int) < 900000
        ∧ (∀ E : Int, |Timing.GetDt E ⟨0, 900000, 1, false⟩ ⟨5000, 100000⟩|
            ≠ (5000 - 0) * 1000000 - (900000 - 100000)))
      ∧ (∀ E : Int, 0 < Timing.GetDt E ⟨0, 900000, 1, false⟩ ⟨3000, 100000⟩)
      ∧ (∀ E : Int, Timing.GetDt E ⟨10, 900000, 1, false⟩ ⟨11, 100000⟩ < 0) := by
  have h1 : (Timing.mk 0 900000 1 false).GetDtOutcome ⟨5000, 100000⟩ = some (-704232704) := by
    decide
  have h2 : (Timing.mk 0 900000 1 false).GetDtOutcome ⟨3000, 100000⟩ = some 1295767296 := by
    decide
  have h3 : (Timing.mk 10 900000 1 false).GetDtOutcome ⟨11, 100000⟩ = some (-200000) := by
    decide
  refine ⟨⟨by decide, by decide, ?_⟩, ?_, ?_⟩
  · intro E; simp only [Timing.GetDt, h1]; decide
  · intro E; simp only [Timing.GetDt, h2]; decide
  · intro E; simp only [Timing.GetDt, h3]; decide

/-- C4, amended: for an epoch `(s, us)` and a reading `t` with `t.tv_sec > s`,
`t.tv_usec < us`, both microsecond fields in `[0, 999999]`, and a true elapsed
time `(t.tv_sec - s) * 1000000 - (us - t.tv_usec)` of at most `2^31`
microseconds, `GetDt` returns the negated elapsed time: its absolute value is
the elapsed time and it is negative. -/
theorem GetDt_boundary_magnitude (E : Int) (self : Timing) (t : timeval)
    (hsec : t.tv_sec > self.s) (husec : t.tv_usec < self.us)
    (ht0 : 0 ≤ t.tv_usec) (ht1 : t.tv_usec ≤ 999999)
    (hs0 : 0 ≤ self.us) (hs1 : self.us ≤ 999999)
    (hr : (t.tv_sec - self.s) * 1000000 - (self.us - t.tv_usec) ≤ 2147483648) :
    |Timing.GetDt E self t| = (t.tv_sec - self.s) * 1000000 - (self.us - t.tv_usec)
      ∧ Timing.GetDt E self t < 0 := by
  have ho := GetDtOutcome_of_le self t (le_of_lt husec)
  have hD : micros self.epoch - micros t
      = -((t.tv_sec - self.s) * 1000000 - (self.us - t.tv_usec)) := by
    simp only [micros, Timing.epoch]; ring
  have hneg : micros self.epoch - micros t < 0 := by
    simp only [micros, Timing.epoch]; omega
  have hw : wrap32 (micros self.epoch - micros t) = micros self.epoch - micros t :=
    wrap32_of_range _ (by omega) (by omega)
  have hv : Timing.GetDt E self t = micros self.epoch - micros t := by
    simp only [Timing.GetDt, ho, hw]
  rw [hv]
  refine ⟨?_, hneg⟩
  rw [abs_of_neg hneg, hD, neg_neg]

/-- Witness of C4: epoch `(10 s, 900000 us)`, reading `(11 s, 100000 us)`,
magnitude `200000`. -/
theorem GetDt_boundary_magnitude_witness :
    |Timing.GetDt 0 ⟨10, 900000, 1, false⟩ ⟨11, 100000⟩| = 200000
      ∧ Timing.GetDt 0 ⟨10, 900000, 1, false⟩ ⟨11, 100000⟩ < 0 :=
  GetDt_boundary_magnitude 0 ⟨10, 900000, 1, false⟩ ⟨11, 100000⟩
    (by decide) (by decide) (by decide) (by decide) (by decide) (by decide) (by decide)

/-- C5 (the code departs from the claim): after `Set` at `(10 s, 100000 us)`,
`GetDt` at the reading one microsecond later returns `999999`; at the reading
of `Set` itself it returns `0`. -/
theorem GetDt_after_Set_eval :
    micros ⟨10, 100001⟩ - micros ⟨10, 100000⟩ = 1
      ∧ ((Timing.mk 0 0 1 false).Set ⟨10, 100000⟩).GetDtOutcome ⟨10, 100001⟩ = some 999999
      ∧ ((Timing.mk 0 0 1 false).Set ⟨10, 100000⟩).GetDtOutcome ⟨10, 100000⟩ = some 0 := by
  refine ⟨by decide, by decide, by decide⟩

/-- C6 (the code departs from the claim): with epoch `(11 s, 100000 us)` the
reading `(10 s, 900000 us)`, which is 200000 microseconds before the epoch,
does not reach `return TIMING_ERROR`: `GetDt` returns the number `1200000`. -/
theorem GetDt_backward_reading_eval :
    micros ⟨10, 900000⟩ < micros (Timing.mk 11 100000 1 false).epoch
      ∧ (Timing.mk 11 100000 1 false).GetDtOutcome ⟨10, 900000⟩ = some 1200000 := by
  refine ⟨by decide, by decide⟩

/-- C7 (the code departs from the claim): with epoch `(10 s, 900000 us)` and
reading `(11 s, 100000 us)`, `GetDtS` returns the `float` nearest to `1/5` of a
second, `13421773 / 67108864`, while `GetDt` returns `-200000` microseconds,
which divided by one million is `-1/5`. -/
theorem GetDtS_GetDt_eval :
    (Timing.mk 10 900000 1 false).GetDtS ⟨11, 100000⟩ = 13421773 / 67108864
      ∧ (Timing.mk 10 900000 1 false).GetDtOutcome ⟨11, 100000⟩ = some (-200000)
      ∧ ((-200000 : Int) : ℚ) / 1000000 = -1 / 5 := by
  refine ⟨?_, by decide, by norm_num⟩
  rw [GetDtS_eq]
  have h : wrap32 (micros ⟨11, 100000⟩ - micros (Timing.mk 10 900000 1 false).epoch)
      = 200000 := by decide
  rw [h, fl32_int 200000 (by decide)]
  have hc : ((200000 : Int) : ℚ) = 200000 := by norm_num
  rw [hc, seconds_200000]

/-- C8 as stated fails: with epoch `(0 s, 0 us)` the reading `(16 s, 777217 us)`
is 16777217 microseconds after the epoch, within the range of `int`, and
`GetDtS` returns `8796093 / 524288` (about 16.77721596), not
`16777217 / 1000000`: the cast to `float` gives `16777216`, and the quotient is
rounded to `double` and then to `float`. -/
theorem GetDtS_exact_quotient_fails :
    (-2147483648 ≤ micros ⟨16, 777217⟩ - micros (Timing.mk 0 0 1 false).epoch
        ∧ micros ⟨16, 777217⟩ - micros (Timing.mk 0 0 1 false).epoch < 2147483648)
      ∧ (Timing.mk 0 0 1 false).GetDtS ⟨16, 777217⟩ = 8796093 / 524288
      ∧ (Timing.mk 0 0 1 false).GetDtS ⟨16, 777217⟩
          ≠ ((micros ⟨16, 777217⟩ - micros (Timing.mk 0 0 1 false).epoch : Int) : ℚ)
              / 1000000 := by
  have hm : micros ⟨16, 777217⟩ - micros (Timing.mk 0 0 1 false).epoch = 16777217 := by
    decide
  have hv : (Timing.mk 0 0 1 false).GetDtS ⟨16, 777217⟩ = 8796093 / 524288 := by
    rw [GetDtS_eq]
    have h : wrap32 (micros ⟨16, 777217⟩ - micros (Timing.mk 0 0 1 false).epoch)
        = 16777217 := by decide
    rw [h]
    have hc : ((16777217 : Int) : ℚ) = 16777217 := by norm_num
    rw [hc, fl32_16777217, seconds_16777216]
  refine ⟨⟨by decide, by decide⟩, hv, ?_⟩
  rw [hv, hm]
  norm_num

/-- C8, amended: `GetDtS` uses the direction reading minus epoch.  For every
timer state and every reading whose distance `D` from the epoch in microseconds
lies in `[-2^31, 2^31)`, `GetDtS` returns `D / 1000000` as the code rounds it
(`D` to `float`, the quotient to `double`, the result to `float`); the result is
within a relative `2^-21` of the exact quotient, it is non-negative when the
reading is not earlier than the epoch and non-positive when it is not later. -/
theorem GetDtS_direction_rounded (self : Timing) (t : timeval)
    (hlo : -2147483648 ≤ micros t - micros self.epoch)
    (hhi : micros t - micros self.epoch < 2147483648) :
    self.GetDtS t
        = fl32 (fl64 (fl32 ((micros t - micros self.epoch : Int) : ℚ) / 1000000))
      ∧ |self.GetDtS t - ((micros t - micros self.epoch : Int) : ℚ) / 1000000|
          ≤ |((micros t - micros self.epoch : Int) : ℚ) / 1000000| / 2097152
      ∧ (micros self.epoch ≤ micros t → 0 ≤ self.GetDtS t)
      ∧ (micros t ≤ micros self.epoch → self.GetDtS t ≤ 0) := by
  have hw := wrap32_of_range _ hlo hhi
  have he : self.GetDtS t
      = fl32 (fl64 (fl32 ((micros t - micros self.epoch : Int) : ℚ) / 1000000)) := by
    rw [GetDtS_eq, hw]
  refine ⟨he, ?_, ?_, ?_⟩
  · rw [he]
    exact seconds_error _
  · intro hle
    rw [he]
    have h0 : (0 : Int) ≤ micros t - micros self.epoch := sub_nonneg.mpr hle
    have := seconds_mono h0
    rwa [seconds_zero] at this
  · intro hle
    rw [he]
    have h0 : micros t - micros self.epoch ≤ (0 : Int) := sub_nonpos.mpr hle
    have := seconds_mono h0
    rwa [seconds_zero] at this

/-- Witness of C8: epoch `(10 s, 900000 us)`, reading `(11 s, 100000 us)`. -/
theorem GetDtS_direction_rounded_witness :
    |(Timing.mk 10 900000 1 false).GetDtS ⟨11, 100000⟩
        - ((micros ⟨11, 100000⟩ - micros (Timing.mk 10 900000 1 false).epoch : Int) : ℚ)
            / 1000000|
      ≤ |((micros ⟨11, 100000⟩ - micros (Timing.mk 10 900000 1 false).epoch : Int) : ℚ)
            / 1000000| / 2097152 :=
  (GetDtS_direction_rounded ⟨10, 900000, 1, false⟩ ⟨11, 100000⟩ (by decide) (by decide)).2.1

/-- C9 as stated fails: with epoch `(0 s, 0 us)` the readings
`(2147 s, 483647 us)` and `(2147 s, 483648 us)` are in order and not earlier
than the epoch, and `GetDtS` decreases from the first, `8796093 / 4096` (about
2147.4836), to the second, `-8796093 / 4096`. -/
theorem GetDtS_monotone_fails :
    micros (Timing.mk 0 0 1 false).epoch ≤ micros ⟨2147, 483647⟩
      ∧ micros ⟨2147, 483647⟩ ≤ micros ⟨2147, 483648⟩
      ∧ (Timing.mk 0 0 1 false).GetDtS ⟨2147, 483647⟩ = 8796093 / 4096
      ∧ (Timing.mk 0 0 1 false).GetDtS ⟨2147, 483648⟩ = -(8796093 / 4096)
      ∧ ¬ ((Timing.mk 0 0 1 false).GetDtS ⟨2147, 483647⟩
            ≤ (Timing.mk 0 0 1 false).GetDtS ⟨2147, 483648⟩) := by
  have h1 : wrap32 (micros ⟨2147, 483647⟩ - micros (Timing.mk 0 0 1 false).epoch)
      = 2147483647 := by decide
  have h2 : wrap32 (micros ⟨2147, 483648⟩ - micros (Timing.mk 0 0 1 false).epoch)
      = -2147483648 := by decide
  have e1 : (Timing.mk 0 0 1 false).GetDtS ⟨2147, 483647⟩ = 8796093 / 4096 := by
    rw [GetDtS_eq, h1]
    have hc : ((2147483647 : Int) : ℚ) = 2147483647 := by norm_num
    rw [hc, fl32_2147483647, seconds_2147483648]
  have e2 : (Timing.mk 0 0 1 false).GetDtS ⟨2147, 483648⟩ = -(8796093 / 4096) := by
    rw [GetDtS_eq, h2]
    have hc : ((-2147483648 : Int) : ℚ) = -2147483648 := by norm_num
    rw [hc, seconds_neg_2147483648]
  refine ⟨by decide, by decide, e1, e2, ?_⟩
  rw [e1, e2]; norm_num

/-- C9, amended: for every timer state with epoch `e` and every two readings
`n1 <= n2` with `e <= n1` and `n2` less than `2^31` microseconds after `e`,
`GetDtS` at `n1` is at most `GetDtS` at `n2`. -/
theorem GetDtS_monotone (self : Timing) (n1 n2 : timeval)
    (he : micros self.epoch ≤ micros n1) (h12 : micros n1 ≤ micros n2)
    (hr : micros n2 - micros self.epoch < 2147483648) :
    self.GetDtS n1 ≤ self.GetDtS n2 := by
  have w1 : wrap32 (micros n1 - micros self.epoch) = micros n1 - micros self.epoch :=
    wrap32_of_range _ (by omega) (by omega)
  have w2 : wrap32 (micros n2 - micros self.epoch) = micros n2 - micros self.epoch :=
    wrap32_of_range _ (by omega) (by omega)
  rw [GetDtS_eq, GetDtS_eq, w1, w2]
  exact seconds_mono (by omega)

/-- Witness of C9: epoch `(10 s, 900000 us)`, readings `(11 s, 100000 us)` and
`(12 s, 0 us)`. -/
theorem GetDtS_monotone_witness :
    (Timing.mk 10 900000 1 false).GetDtS ⟨11, 100000⟩
      ≤ (Timing.mk 10 900000 1 false).GetDtS ⟨12, 0⟩ :=
  GetDtS_monotone ⟨10, 900000, 1, false⟩ ⟨11, 100000⟩ ⟨12, 0⟩
    (by decide) (by decide) (by decide)

/-- C10 as stated fails: constructing with period `0` or `-1` at the reading
`(100 s, 0 us)` yields a timer that stores that period, and the timer with
period `-1` answers a check at the construction reading with `true`. -/
theorem ctor_nonpositive_accepted :
    (Timing.ctor 0 ⟨100, 0⟩) = ⟨100, 0, 0, false⟩
      ∧ (Timing.ctor (-1) ⟨100, 0⟩) = ⟨100, 0, -1, false⟩
      ∧ ((Timing.ctor (-1) ⟨100, 0⟩).CheckExpired ⟨100, 0⟩).1 = true := by
  refine ⟨rfl, rfl, ?_⟩
  rw [CheckExpired_true_iff]
  have h : wrap32 (micros ⟨100, 0⟩ - micros (Timing.ctor (-1) ⟨100, 0⟩).epoch) = 0 := by
    decide
  have hp : (Timing.ctor (-1) ⟨100, 0⟩).period = -1 := rfl
  rw [h, hp]
  have h1 : ((0 : Int) : ℚ) = 0 := by norm_num
  have h2 : (-1 : ℚ) * 1000000 = ((-1000000 : Int) : ℚ) := by norm_num
  rw [h1, h2, fl32_zero, fl32_int (-1000000) (by decide)]
  norm_num

/-- C10, amended: construction checks nothing.  For every period, positive or
not, and every clock reading, the constructor yields the timer whose epoch is
the reading, whose period is the argument unchanged and whose `expired` flag is
`false`. -/
theorem ctor_stores_any_period (_period : ℚ) (t : timeval) :
    Timing.ctor _period t
      = { s := t.tv_sec, us := t.tv_usec, period := _period, expired := false } := by
  rfl

/-! Frame, cache and case analysis -/

/-- C11: frame of `period` and epoch.  For every timer state, call and clock
reading: (i) no call changes `period`; (ii) `CheckExpired`, `GetDt` and `GetDtS`
leave `s` and `us` as they were, while `Set` moves them to the reading;
(iii) `GetDt` and `GetDtS` leave the whole state as it was and `CheckExpired`
changes at most `expired`. -/
theorem frame_period_epoch (self : Timing) (t : timeval) :
    (∀ c : Call, (self.step c t).period = self.period)
      ∧ (∀ c : Call, c ≠ Call.Set → (self.step c t).s = self.s ∧ (self.step c t).us = self.us)
      ∧ ((self.step Call.Set t).s = t.tv_sec ∧ (self.step Call.Set t).us = t.tv_usec)
      ∧ (self.step Call.GetDt t = self ∧ self.step Call.GetDtS t = self)
      ∧ (self.step Call.CheckExpired t = { self with expired := (self.CheckExpired t).1 }) := by
  refine ⟨?_, ?_, ⟨rfl, rfl⟩, ⟨rfl, rfl⟩, ?_⟩
  · intro c
    cases c with
    | CheckExpired => exact CheckExpired_period self t
    | Set => rfl
    | GetDt => rfl
    | GetDtS => rfl
  · intro c hc
    cases c with
    | CheckExpired => exact CheckExpired_epoch self t
    | Set => exact absurd rfl hc
    | GetDt => exact ⟨rfl, rfl⟩
    | GetDtS => exact ⟨rfl, rfl⟩
  · exact CheckExpired_snd self t

/-- C13: the cached flag never influences behaviour.  For two timer states with
the same `s`, `us` and `period` and any clock reading: `CheckExpired` returns the
same value and leaves the same state, `GetDt` reaches the same `return` with the
same value, `GetDtS` returns the same value, and the states after `Set` again
agree on `s`, `us` and `period`, each keeping its own `expired`. -/
theorem expired_no_influence (a b : Timing) (t : timeval)
    (hs : a.s = b.s) (hus : a.us = b.us) (hp : a.period = b.period) :
    a.CheckExpired t = b.CheckExpired t
      ∧ a.GetDtOutcome t = b.GetDtOutcome t
      ∧ (∀ E : Int, Timing.GetDt E a t = Timing.GetDt E b t)
      ∧ a.GetDtS t = b.GetDtS t
      ∧ ((a.Set t).s = (b.Set t).s ∧ (a.Set t).us = (b.Set t).us
          ∧ (a.Set t).period = (b.Set t).period
          ∧ (a.Set t).expired = a.expired ∧ (b.Set t).expired = b.expired) := by
  have ho : a.GetDtOutcome t = b.GetDtOutcome t := by
    simp only [Timing.GetDtOutcome, hs, hus]
  refine ⟨CheckExpired_congr a b t hs hus hp, ho, ?_, ?_, ⟨rfl, rfl, hp, rfl, rfl⟩⟩
  · intro E
    simp only [Timing.GetDt, ho]
  · simp only [Timing.GetDtS, hs, hus]

/-- Witness of C13: the states `(10 s, 0 us)`, period `2 s`, with `expired`
`false` and `true`, read at `(13 s, 0 us)`. -/
theorem expired_no_influence_witness :
    (Timing.mk 10 0 2 false).CheckExpired ⟨13, 0⟩ = (Timing.mk 10 0 2 true).CheckExpired ⟨13, 0⟩
      ∧ (Timing.mk 10 0 2 false).GetDtS ⟨13, 0⟩ = (Timing.mk 10 0 2 true).GetDtS ⟨13, 0⟩ :=
  have h := expired_no_influence ⟨10, 0, 2, false⟩ ⟨10, 0, 2, true⟩ ⟨13, 0⟩ rfl rfl rfl
  ⟨h.1, h.2.2.2.1⟩

/-- On the branch `t.tv_usec > us` of `GetDt` with `elapsedSec` not negative the
result is the wrapped difference epoch minus reading plus one million. -/
theorem GetDtOutcome_of_gt_nonneg (self : Timing) (t : timeval) (h : t.tv_usec > self.us)
    (hsec : ¬ wrap32 (self.s - t.tv_sec) < 0) :
    self.GetDtOutcome t = some (wrap32 (micros self.epoch - micros t + 1000000)) := by
  unfold Timing.GetDtOutcome
  simp only [h, if_true, hsec, if_false]
  rw [wrap32_mul_add]
  congr 2
  simp only [micros, Timing.epoch]
  ring

/-- On the branch `t.tv_usec > us` of `GetDt` with `elapsedSec` negative the
function reaches `return TIMING_ERROR`. -/
theorem GetDtOutcome_of_gt_neg (self : Timing) (t : timeval) (h : t.tv_usec > self.us)
    (hsec : wrap32 (self.s - t.tv_sec) < 0) :
    self.GetDtOutcome t = none := by
  unfold Timing.GetDtOutcome
  simp only [h, if_true, hsec]

/-- C14 as stated fails: with epoch `(10 s, 900000 us)` and the reading
`(11 s, 100000 us)`, whose microsecond field is the smaller one, `GetDt` returns
`-200000`, not the borrow value
`(10 - 11) * 1000000 + (1000000 + 900000 - 100000) = 800000`. -/
theorem GetDt_borrow_on_smaller_fails :
    (100000 : Int) < 900000
      ∧ (∀ E : Int, Timing.GetDt E ⟨10, 900000, 1, false⟩ ⟨11, 100000⟩ = -200000)
      ∧ (∀ E : Int, Timing.GetDt E ⟨10, 900000, 1, false⟩ ⟨11, 100000⟩
          ≠ (10 - 11) * 1000000 + (1000000 + 900000 - 100000)) := by
  have h : (Timing.mk 10 900000 1 false).GetDtOutcome ⟨11, 100000⟩ = some (-200000) := by
    decide
  refine ⟨by decide, ?_, ?_⟩
  · intro E; simp only [Timing.GetDt, h]
  · intro E; simp only [Timing.GetDt, h]; decide

/-- C14, amended: for every epoch `(s, us)` and reading `t` with
`t.tv_usec < us`, `GetDt` takes the computation without borrow: it returns
`(s - t.tv_sec) * 1000000 + (us - t.tv_usec)` as a 32-bit `int`, which is that
number itself when it lies in `[-2^31, 2^31)`, and it does not reach
`return TIMING_ERROR`. -/
theorem GetDt_smaller_fraction_plain (E : Int) (self : Timing) (t : timeval)
    (husec : t.tv_usec < self.us) :
    Timing.GetDt E self t = wrap32 ((self.s - t.tv_sec) * 1000000 + (self.us - t.tv_usec))
      ∧ (-2147483648 ≤ (self.s - t.tv_sec) * 1000000 + (self.us - t.tv_usec)
          → (self.s - t.tv_sec) * 1000000 + (self.us - t.tv_usec) < 2147483648
          → Timing.GetDt E self t = (self.s - t.tv_sec) * 1000000 + (self.us - t.tv_usec))
      ∧ self.GetDtOutcome t ≠ none := by
  have ho := GetDtOutcome_of_le self t (le_of_lt husec)
  have hD : micros self.epoch - micros t
      = (self.s - t.tv_sec) * 1000000 + (self.us - t.tv_usec) := by
    simp only [micros, Timing.epoch]; ring
  rw [hD] at ho
  have hv : Timing.GetDt E self t
      = wrap32 ((self.s - t.tv_sec) * 1000000 + (self.us - t.tv_usec)) := by
    simp only [Timing.GetDt, ho]
  refine ⟨hv, ?_, ?_⟩
  · intro hlo hhi
    rw [hv, wrap32_of_range _ hlo hhi]
  · rw [ho]; exact Option.some_ne_none _

/-- Witness of C14: epoch `(10 s, 900000 us)`, reading `(11 s, 100000 us)`. -/
theorem GetDt_smaller_fraction_plain_witness :
    Timing.GetDt 0 ⟨10, 900000, 1, false⟩ ⟨11, 100000⟩
      = wrap32 (((10 : Int) - 11) * 1000000 + (900000 - 100000)) :=
  (GetDt_smaller_fraction_plain 0 ⟨10, 900000, 1, false⟩ ⟨11, 100000⟩ (by decide)).1

/-- C15 (the code departs from the claim): with epoch `(20 s, 0 us)` the reading
`(21 s, 1 us)`, which is 1000001 microseconds after the epoch with both
microsecond fields in `[0, 999999]`, reaches `return TIMING_ERROR`. -/
theorem GetDt_forward_reading_fault_eval :
    micros ⟨21, 1⟩ ≥ micros (Timing.mk 20 0 1 false).epoch
      ∧ micros ⟨21, 1⟩ - micros (Timing.mk 20 0 1 false).epoch = 1000001
      ∧ (Timing.mk 20 0 1 false).GetDtOutcome ⟨21, 1⟩ = none := by
  refine ⟨by decide, by decide, by decide⟩

/-- C16 as stated fails outside the range of `int`.  Epoch `(0 s, 500000 us)`,
reading `(4000 s, 200000 us)`: `D = -3999700000`, `GetDt` returns `295267296`.
Epoch `(4000 s, 200000 us)`, reading `(0 s, 500000 us)`:
`D + 1000000 = 4000700000`, `GetDt` returns `-294267296`.  Epoch `(0 s, 0 us)`,
reading `(2147483649 s, 1 us)`: the reading's second is the later one and
`GetDt` does not reach `return TIMING_ERROR`. -/
theorem GetDt_case_analysis_unbounded_fails :
    ((200000 : Int) ≤ 500000
        ∧ micros (Timing.mk 0 500000 1 false).epoch - micros ⟨4000, 200000⟩ = -3999700000
        ∧ (Timing.mk 0 500000 1 false).GetDtOutcome ⟨4000, 200000⟩ = some 295267296)
      ∧ ((500000 : Int) > 200000 ∧ (0 : Int) ≤ 4000
        ∧ micros (Timing.mk 4000 200000 1 false).epoch - micros ⟨0, 500000⟩ + 1000000
            = 4000700000
        ∧ (Timing.mk 4000 200000 1 false).GetDtOutcome ⟨0, 500000⟩ = some (-294267296))
      ∧ ((1 : Int) > 0 ∧ (2147483649 : Int) > 0
        ∧ (Timing.mk 0 0 1 false).GetDtOutcome ⟨2147483649, 1⟩ ≠ none) := by
  refine ⟨⟨by decide, by decide, by decide⟩, ⟨by decide, by decide, by decide, by decide⟩,
    ⟨by decide, by decide, by decide⟩⟩

/-- C16, amended: with `D` the exact integer epoch minus reading in
microseconds, for every epoch `(s, us)` and reading `t` whose difference of
seconds `s - t.tv_sec` lies in `[-2^31, 2^31)`: if `t.tv_usec <= us` the result
is `D` as a 32-bit `int`; if `t.tv_usec > us` and `t.tv_sec <= s` the result is
`D + 1000000` as a 32-bit `int`; if `t.tv_usec > us` and `t.tv_sec > s` the
function reaches `return TIMING_ERROR`.  The results are `D` and `D + 1000000`
themselves when these lie in `[-2^31, 2^31)`; so for two readings in the same
second with `t.tv_usec > us` (at most `2^31 + 1000000` apart) the result is
`1000000` minus the elapsed microseconds. -/
theorem GetDt_case_analysis (self : Timing) (t : timeval)
    (hlo : -2147483648 ≤ self.s - t.tv_sec) (hhi : self.s - t.tv_sec < 2147483648) :
    (t.tv_usec ≤ self.us
        → self.GetDtOutcome t = some (wrap32 (micros self.epoch - micros t)))
      ∧ (t.tv_usec > self.us → t.tv_sec ≤ self.s
        → self.GetDtOutcome t = some (wrap32 (micros self.epoch - micros t + 1000000)))
      ∧ (t.tv_usec > self.us → t.tv_sec > self.s → self.GetDtOutcome t = none)
      ∧ (t.tv_usec ≤ self.us → -2147483648 ≤ micros self.epoch - micros t
        → micros self.epoch - micros t < 2147483648
        → self.GetDtOutcome t = some (micros self.epoch - micros t))
      ∧ (t.tv_usec > self.us → t.tv_sec ≤ self.s
        → -2147483648 ≤ micros self.epoch - micros t + 1000000
        → micros self.epoch - micros t + 1000000 < 2147483648
        → self.GetDtOutcome t = some (micros self.epoch - micros t + 1000000))
      ∧ (t.tv_usec > self.us → t.tv_sec = self.s
        → t.tv_usec - self.us ≤ 2147483648 + 1000000
        → self.GetDtOutcome t = some (1000000 - (micros t - micros self.epoch))) := by
  have hw : wrap32 (self.s - t.tv_sec) = self.s - t.tv_sec := wrap32_of_range _ hlo hhi
  have hborrow : t.tv_usec > self.us → t.tv_sec ≤ self.s
      → self.GetDtOutcome t = some (wrap32 (micros self.epoch - micros t + 1000000)) := by
    intro hu hs
    apply GetDtOutcome_of_gt_nonneg self t hu
    rw [hw]; omega
  refine ⟨GetDtOutcome_of_le self t, hborrow, ?_, ?_, ?_, ?_⟩
  · intro hu hs
    apply GetDtOutcome_of_gt_neg self t hu
    rw [hw]; omega
  · intro hu h1 h2
    rw [GetDtOutcome_of_le self t hu, wrap32_of_range _ h1 h2]
  · intro hu hs h1 h2
    rw [hborrow hu hs, wrap32_of_range _ h1 h2]
  · intro hu hs hd
    rw [hborrow hu (le_of_eq hs)]
    have he : micros self.epoch - micros t + 1000000
        = 1000000 - (micros t - micros self.epoch) := by ring
    rw [he]
    have hm : micros t - micros self.epoch = t.tv_usec - self.us := by
      simp only [micros, Timing.epoch, hs]; ring
    rw [wrap32_of_range _ (by omega) (by omega)]

/-- Witness of C16: epoch `(10 s, 100000 us)` and the reading
`(10 s, 500000 us)` of the same second, 400000 microseconds later: the result
is `1000000 - 400000`. -/
theorem GetDt_case_analysis_witness :
    (Timing.mk 10 100000 1 false).GetDtOutcome ⟨10, 500000⟩
      = some (1000000 - (micros ⟨10, 500000⟩ - micros (Timing.mk 10 100000 1 false).epoch)) :=
  (GetDt_case_analysis ⟨10, 100000, 1, false⟩ ⟨10, 500000⟩ (by decide) (by decide)).2.2.2.2.2
    (by decide) rfl (by decide)

/-- C17: long periods never expire.  With `t1`, `t2` and `t2 - t1` 32-bit ints
and the period an exact rational with `period * 1000000 >= 2^31 - 1`,
`CheckExpired` returns `false` for every epoch and every clock reading. -/
theorem long_period_never_expires (self : Timing) (t : timeval)
    (hP : self.period * 1000000 ≥ 2147483647) :
    (self.CheckExpired t).1 = false := by
  rw [CheckExpired_false_iff]
  have hr := (wrap32_range (micros t - micros self.epoch)).2
  have hle : wrap32 (micros t - micros self.epoch) ≤ 2147483647 := by omega
  have hq : ((wrap32 (micros t - micros self.epoch) : Int) : ℚ) ≤ 2147483647 := by
    exact_mod_cast hle
  exact le_trans (fl32_mono hq) (fl32_mono hP)

/-- Witness of C17: period `2148 s`, epoch `(0 s, 0 us)`, reading
`(100000 s, 0 us)`, more than a day later. -/
theorem long_period_never_expires_witness :
    ((Timing.mk 0 0 2148 false).CheckExpired ⟨100000, 0⟩).1 = false :=
  long_period_never_expires ⟨0, 0, 2148, false⟩ ⟨100000, 0⟩ (by norm_num)
